import Mathlib

/-!
Verification of the log-viewing core in `logview/logview.go` of the
repository cgsdev0/logfilter.

Strings are modelled as `List Char` (Go indexes bytes; none of the
properties below depends on the byte/rune distinction).  External
collaborators of the core are passed in as parameters:

* `ws` models `wrap.String` from muesli/reflow/wrap (soft reflow),
* `ts` models `truncate.String` from muesli/reflow/truncate,
* `hl` models `highlight.Render` from lipgloss,
* `compile` models `regexp.Compile`; a compiled `*regexp.Regexp` is
  modelled by the semantics the code consumes, namely its
  `FindAllStringIndex` result: a list of `(start, stop)` index pairs,
* `styleLog` / `styleStatus` model the lipgloss style boxes used by
  `Render`,
* `fmtPos` models the position formatting done with fmt; we keep only
  its two integer arguments.

`bufio.Scanner` with the default `ScanLines` split function is modelled
faithfully, including its carriage-return handling: a token ends at each
newline and drops one `'\r'` directly before that newline, and at end of
data a final non-terminated token likewise drops one trailing `'\r'`.
-/

namespace Logview

abbrev Str := List Char

def str (s : String) : Str := s.toList

/-- A compiled regular expression, seen through `FindAllStringIndex`:
the list of non-overlapping match spans `(start, stop)` found
left-to-right in the given string. -/
abbrev RE := Str → List (Nat × Nat)

inductive FocusArea where
  | focusNone
  | FocusSearchBar
  | FocusLogPane
  | FocusHelp
deriving DecidableEq

/-- The `Model` struct of logview.go.  `inputValue` stands for the value
held by the external `textinput.Model` (the only part of that widget the
core reads), and `queryRe` for the compiled `*regexp.Regexp`. -/
structure Model where
  windowWidth : Int
  windowHeight : Int
  shouldHardwrap : Bool
  shouldShowStatusbar : Bool
  focus : FocusArea
  inputValue : Str
  queryRe : Option RE
  prevQuery : Str
  heldKey : Str
  scrollPosition : Int
  firstDisplayedLine : Int
  lines : List Str
  filtered : List Str
  buffer : Str

/-- The model `New()` builds with no options: Go zero values, except the fields `New` sets. -/
def New : Model where
  windowWidth := 0
  windowHeight := 0
  shouldHardwrap := false
  shouldShowStatusbar := true
  focus := .focusNone
  inputValue := []
  queryRe := none
  prevQuery := []
  heldKey := []
  scrollPosition := -1
  firstDisplayedLine := 0
  lines := []
  filtered := []
  buffer := []

/-- The helper `clamp` from logview.go (instantiated at `Int`). -/
def clamp (lower upper val : Int) : Int := max lower (min upper val)

/-- The `lineView` selection that logview.go repeats at the top of
`RenderLineStatus`, `RenderLog`, `ScrollBy` and `ScrollTo`:
`lineView := m.lines; if m.queryRe != nil { lineView = m.filtered }`. -/
def lineView (m : Model) : List Str := if m.queryRe.isSome then m.filtered else m.lines

/-- The helper `dropCR` from Go's bufio package: drops one terminal `'\r'`. -/
def dropCR (s : Str) : Str :=
  if s.getLast? = some '\r' then s.dropLast else s

/-- One pass of `bufio.Scanner` with `ScanLines` over the remaining data,
with `cur` the bytes of the current token read so far.  A `'\n'` ends a
token (after `dropCR`); leftover data at end of input forms a final token
(after `dropCR`); no trailing empty token is produced. -/
def scanAux : Str → Str → List Str
  | [], cur => if cur = [] then [] else [dropCR cur]
  | c :: rest, cur =>
    if c = '\n' then dropCR cur :: scanAux rest []
    else scanAux rest (cur ++ [c])

/-- All tokens `scanner.Scan()`/`scanner.Text()` yields for `content`. -/
def scanTokens (content : Str) : List Str := scanAux content []

/-- Go slice `line[a:b]`. -/
def sliceStr (line : Str) (a b : Nat) : Str := (line.take b).drop a

/-- The match loop of `searchLine`: walks the `FindAllStringIndex` spans,
carrying `start` (end of the previous span) and the nullable `result`
string.  Returns the built string together with the final `start`. -/
def searchLoop (hl : Str → Str) (line : Str) :
    List (Nat × Nat) → Nat → Option Str → Option Str × Nat
  | [], start, result => (result, start)
  | (a, b) :: ms, start, result =>
    let result := if a > start then some (result.getD [] ++ sliceStr line start a) else result
    let result := some (result.getD [] ++ hl (sliceStr line a b))
    searchLoop hl line ms b result

/-- The body of `searchLine` on explicit fields (`queryRe`, `lines`); logview.go's
method reads exactly these two fields of the receiver.  The Go code
indexes `m.lines[lineno]`; every call site uses an in-range index, so the
out-of-range default `[]` is never reached. -/
def searchLineOn (hl : Str → Str) (queryRe : Option RE) (lines : List Str) (lineno : Int) :
    Option Str :=
  match queryRe with
  | none => none
  | some re =>
    if lineno < 0 then none
    else
      let line := lines.getD lineno.toNat []
      match searchLoop hl line (re line) 0 none with
      | (none, _) => none
      | (some r, start) => some (r ++ line.drop start)

/-- Method `m.searchLine(lineno)`. -/
def searchLine (hl : Str → Str) (m : Model) (lineno : Int) : Option Str :=
  searchLineOn hl m.queryRe m.lines lineno

/-- Method `m.search()`: apply `searchLine` to every line index in order and
keep the non-nil results. -/
def search (hl : Str → Str) (m : Model) : List Str :=
  match m.queryRe with
  | none => []
  | some _ => (List.range m.lines.length).filterMap fun i => searchLine hl m (i : Int)

/-- The `for scanner.Scan()` loop body of `handleWrite`, iterated over
the remaining scanner tokens.  Note the condition
`result != nil && strings.HasSuffix(text, "\n")` taken verbatim from the
source: a scanner token never contains `'\n'`, so the second conjunct is
never true. -/
def writeLoop (hl : Str → Str) : Model → List Str → Model
  | m, [] => m
  | m, text :: rest =>
    let m1 : Model := { m with lines := m.lines ++ [text] }
    let m2 : Model :=
      match searchLine hl m1 ((m1.lines.length : Int) - 1) with
      | some r => if text.getLast? = some '\n' then { m1 with filtered := m1.filtered ++ [r] } else m1
      | none => m1
    writeLoop hl m2 rest

/-- Method `m.handleWrite(content)` (also reachable as `m.Write(content)`). -/
def handleWrite (hl : Str → Str) (m : Model) (content : Str) : Model :=
  match scanTokens content with
  | [] => m
  | text :: rest =>
    let m1 : Model := { m with lines := m.lines ++ [m.buffer ++ text], buffer := [] }
    let m1' : Model :=
      match searchLine hl m1 ((m1.lines.length : Int) - 1) with
      | some r => { m1 with filtered := m1.filtered ++ [r] }
      | none => m1
    let m2 := writeLoop hl m1' rest
    if 0 < m2.lines.length ∧ ¬ content.getLast? = some '\n' then
      { m2 with buffer := m2.lines.getLast?.getD [], lines := m2.lines.dropLast }
    else m2

/-- Method `m.handleSearch()`. -/
def handleSearch (hl : Str → Str) (compile : Str → Option RE) (m : Model) : Model :=
  let query := m.inputValue
  if query = [] then { m with queryRe := none }
  else
    let m1 : Model :=
      match compile query with
      | some re => { m with queryRe := some re }
      | none => m
    { m1 with filtered := search hl m1 }

/-- Method `m.SetQuery(query)`: `m.input.SetValue(query); m.handleSearch()`. -/
def SetQuery (hl : Str → Str) (compile : Str → Option RE) (m : Model) (query : Str) : Model :=
  handleSearch hl compile { m with inputValue := query }

/-- Method `m.ScrollBy(lines)`. -/
def ScrollBy (m : Model) (lines : Int) : Model :=
  let lv := lineView m
  let m1 : Model :=
    if m.scrollPosition < 0 then { m with scrollPosition := max 0 m.firstDisplayedLine } else m
  { m1 with scrollPosition := clamp 0 ((lv.length : Int) - 1) (m1.scrollPosition + lines) }

/-- Method `m.ScrollTo(line)`. -/
def ScrollTo (m : Model) (line : Int) : Model :=
  let lv := lineView m
  if line < 0 then { m with scrollPosition := -1 }
  else { m with scrollPosition := clamp 0 ((lv.length : Int) - 1) line }

/-- Method `m.logHeight(height)`. -/
def logHeight (m : Model) (height : Int) : Int :=
  if ¬ m.shouldShowStatusbar then height else max (height - 1) 0

/-- Go's `strings.Split(s, "\n")`. -/
def splitNL : Str → List Str
  | [] => [[]]
  | c :: rest =>
    if c = '\n' then [] :: splitNL rest
    else
      match splitNL rest with
      | [] => [[c]]
      | g :: gs => (c :: g) :: gs

/-- Go's `strings.Join(xs, "\n")`. -/
def joinNL : List Str → Str
  | [] => []
  | [x] => x
  | x :: xs => x ++ '\n' :: joinNL xs

/-- Go's `strings.Count(s, "\n")` as an `Int`. -/
def countNL (s : Str) : Int := (s.count '\n' : Int)

/-- The helper `firstNLines` from logview.go: `lines[:min(n, len(lines))]`.  The
`Int`-to-`Nat` conversion matches Go for the non-negative `n` of every
call site. -/
def firstNLines (s : Str) (n : Int) : Str :=
  let lines := splitNL s
  joinNL (lines.take (min n (lines.length : Int)).toNat)

/-- The helper `lastNLines` from logview.go: `lines[max(0, len(lines)-n):]`. -/
def lastNLines (s : Str) (n : Int) : Str :=
  let lines := splitNL s
  joinNL (lines.drop (max 0 ((lines.length : Int) - n)).toNat)

/-- Method `m.wrapLine(line, maxLines, width)`; `ts` stands for
`truncate.String`, `ws` for `wrap.String`. -/
def wrapLine (ws ts : Str → Int → Str) (m : Model) (line : Str) (maxLines width : Int) :
    Str × Int :=
  if m.shouldHardwrap then (ts line width, 1)
  else
    let wrapped := ws line width
    let wrappedHeight := countNL wrapped + 1
    if wrappedHeight > maxLines then
      (if m.scrollPosition < 0 then lastNLines wrapped maxLines else firstNLines wrapped maxLines,
       maxLines)
    else (wrapped, wrappedHeight)

/-- Go's `strings.TrimSuffix(s, "\n")`. -/
def trimTrailingNL (s : Str) : Str :=
  if s.getLast? = some '\n' then s.dropLast else s

/-- Go's `strings.TrimPrefix(s, "\n")`: removal of one leading newline. -/
def trimLeadingNL : Str → Str
  | '\n' :: rest => rest
  | s => s

/-- The bottom-padding loop of the tailing branch of `RenderLog`,
prepending `count` rows of `width` spaces. -/
def padTop (width : Int) : Nat → Str → Str
  | 0, out => out
  | k + 1, out => padTop width k ((List.replicate width.toNat ' ' ++ ['\n']) ++ out)

/-- The backwards accumulation loop of the tailing branch of
`RenderLog`.  The Go loop variable `pointer` runs from `linecount-1`
down to `-1`; here `p1 = pointer + 1 : Nat`, so the loop runs while
`p1 > 0` and returns the final `p1` (the Go loop's final `pointer` is
`p1 - 1`). -/
def tailLoop (ws ts : Str → Int → Str) (m : Model) (lv : List Str) (targetHeight width : Int) :
    Nat → Int → Str → Nat × Int × Str
  | 0, outputHeight, output => (0, outputHeight, output)
  | p + 1, outputHeight, output =>
    if outputHeight < targetHeight then
      let l := lv.getD p []
      let w := wrapLine ws ts m l (targetHeight - outputHeight) width
      tailLoop ws ts m lv targetHeight width p (outputHeight + w.2) ('\n' :: (w.1 ++ output))
    else (p + 1, outputHeight, output)

/-- The forwards accumulation loop of the pinned branch of `RenderLog`.
`fuel` bounds the iteration count (passing `lv.length` is always
enough, since `pointer` increases towards `lv.length`). -/
def headLoop (ws ts : Str → Int → Str) (m : Model) (lv : List Str) (targetHeight width : Int) :
    Nat → Nat → Int → Str → Nat × Int × Str
  | 0, pointer, outputHeight, output => (pointer, outputHeight, output)
  | f + 1, pointer, outputHeight, output =>
    if outputHeight < targetHeight ∧ pointer < lv.length then
      let l := lv.getD pointer []
      let w := wrapLine ws ts m l (targetHeight - outputHeight) width
      headLoop ws ts m lv targetHeight width f (pointer + 1) (outputHeight + w.2)
        (output ++ w.1 ++ ['\n'])
    else (pointer, outputHeight, output)

/-- Method `m.RenderLog(width, height)`.  The Go method mutates
`m.firstDisplayedLine` through the pointer receiver; here the updated
model is returned alongside the output string. -/
def RenderLog (ws ts : Str → Int → Str) (m : Model) (width height : Int) : Model × Str :=
  let lv := lineView m
  if m.scrollPosition < 0 then
    let linecount := lv.length
    let targetHeight := height
    let s0 : Int × Str :=
      if m.buffer ≠ [] then
        let w := wrapLine ws ts m m.buffer targetHeight width
        (w.2, '\n' :: w.1)
      else (0, [])
    let r := tailLoop ws ts m lv targetHeight width linecount s0.1 s0.2
    let m' : Model := { m with firstDisplayedLine := (r.1 : Int) - 1 }
    let output := trimLeadingNL r.2.2
    let output := padTop width (targetHeight - r.2.1).toNat output
    (m', output)
  else
    let pointer := m.scrollPosition.toNat
    let targetHeight := logHeight m height
    let m' : Model := { m with firstDisplayedLine := m.scrollPosition }
    let r := headLoop ws ts m lv targetHeight width lv.length pointer 0 []
    let output :=
      if r.2.1 < targetHeight ∧ m.buffer ≠ [] then
        let w := wrapLine ws ts m m.buffer (targetHeight - r.2.1) width
        r.2.2 ++ w.1 ++ ['\n']
      else r.2.2
    (m', trimTrailingNL output)

/-- Method `m.RenderLineStatus()`; `fmtPos p c` stands for the fmt
formatting of the position and the count. -/
def RenderLineStatus (fmtPos : Int → Int → Str) (m : Model) : Str :=
  let lv := lineView m
  let linecount := (lv.length : Int) + (if m.buffer ≠ [] then 1 else 0)
  if m.scrollPosition < 0 then []
  else fmtPos (m.scrollPosition + 1) linecount

/-- Method `m.RenderSearchStatus()`; `inputView` stands for `m.input.View()`. -/
def RenderSearchStatus (inputView : Str) (m : Model) : Str :=
  if m.inputValue ≠ [] ∨ m.focus = FocusArea.FocusSearchBar then inputView else []

/-- Method `m.viewStatusbar()`. -/
def viewStatusbar (fmtPos : Int → Int → Str) (inputView : Str) (m : Model) : Str :=
  let result := RenderLineStatus fmtPos m
  let result := if result ≠ [] then result ++ ['\t'] else result
  result ++ RenderSearchStatus inputView m

/-- Method `m.Render(styles, width, height)`; `styleLog`/`styleStatus` model
the lipgloss boxes `styles.Log.....Render` and
`styles.Statusbar.....Render` (taking the width and height the box is
configured with). -/
def Render (ws ts : Str → Int → Str) (styleLog styleStatus : Int → Int → Str → Str)
    (fmtPos : Int → Int → Str) (inputView : Str) (m : Model) (width height : Int) :
    Model × Str :=
  if width ≤ 0 ∨ height ≤ 0 then (m, [])
  else if height < 2 ∨ m.shouldShowStatusbar = false then
    let r := RenderLog ws ts m width height
    (r.1, styleLog width height r.2)
  else
    let r := RenderLog ws ts m width (height - 1)
    let logv := styleLog width (height - 1) r.2
    let statusbar := styleStatus width 1 (viewStatusbar fmtPos inputView r.1)
    (r.1, logv ++ '\n' :: statusbar)

/-! ### Derived forms used by the proofs -/

/-- The effect of `handleWrite` on the pair (complete lines, pending
buffer), extracted from the definition of `handleWrite`: the Filtered
View bookkeeping does not touch these two fields. -/
def ingestLB (L : List Str) (b c : Str) : List Str × Str :=
  match scanTokens c with
  | [] => (L, b)
  | t :: ts =>
    let all := L ++ (b ++ t) :: ts
    if c.getLast? = some '\n' then (all, [])
    else (all.dropLast, all.getLast?.getD [])

/-- Every `Model` field other than `lines`, `filtered` and `buffer`
(the three fields ingestion is allowed to change), gathered in a tuple. -/
def nonIngest (m : Model) :
    Int × Int × Bool × Bool × FocusArea × Str × Option RE × Str × Str × Int × Int :=
  (m.windowWidth, m.windowHeight, m.shouldHardwrap, m.shouldShowStatusbar, m.focus,
   m.inputValue, m.queryRe, m.prevQuery, m.heldKey, m.scrollPosition, m.firstDisplayedLine)

/-- The number of visual rows of the full (unclipped) wrapped block of
one line: 1 under hard wrap, newline count + 1 of the reflow under soft
wrap. -/
def fullBlockHeight (ws : Str → Int → Str) (hard : Bool) (l : Str) (width : Int) : Int :=
  if hard then 1 else countNL (ws l width) + 1

/-- The rows contributed by the pending buffer at the start of a tailing
render: none when empty, one under hard wrap, and the reflow height
clipped to the target otherwise. -/
def bufBlockHeight (ws : Str → Int → Str) (hard : Bool) (buffer : Str) (width target : Int) :
    Int :=
  if buffer = [] then 0
  else if hard then 1
  else min (countNL (ws buffer width) + 1) target

/-- Total full block height of the lines of `lv` from index `j` on. -/
def tailSuffixHeight (ws : Str → Int → Str) (hard : Bool) (lv : List Str) (width : Int)
    (j : Nat) : Int :=
  ((lv.drop j).map fun l => fullBlockHeight ws hard l width).sum

/-- Pure arithmetic abstraction of the tailing loop's stopping index:
from `p1` downwards, keep descending while the suffix starting at the
current index still fits under `target` together with `A`. -/
def tailStop (A target : Int) (suffix : Nat → Int) : Nat → Nat
  | 0 => 0
  | j + 1 => if A + suffix (j + 1) < target then tailStop A target suffix j else j + 1

/-- The logical index of the oldest line a tailing render includes: the
least `j` whose tail (the buffer block plus the full blocks of all lines
from index `j` on) fits strictly under the target row count.  When no
line fits, this is `lv.length`. -/
def oldestIncluded (ws : Str → Int → Str) (hard : Bool) (lv : List Str) (buffer : Str)
    (width target : Int) : Nat :=
  ((List.range lv.length).find? fun j =>
    decide (bufBlockHeight ws hard buffer width target +
      tailSuffixHeight ws hard lv width (j + 1) < target)).getD lv.length

/-! ### Concrete instances of the external collaborators, for closed
evaluations -/

/-- A concrete highlight renderer: bracket the matched span. -/
def hl0 (s : Str) : Str := '[' :: (s ++ [']'])

/-- A concrete stand-in for `wrap.String` (identity: the input is reused
as its own reflow). -/
def ws0 (s : Str) (_ : Int) : Str := s

/-- A concrete stand-in for `truncate.String` (byte truncation). -/
def ts0 (s : Str) (w : Int) : Str := s.take w.toNat

/-- A concrete compiled query matching exactly the line `b` (one span
covering the whole line). -/
def reB : RE := fun s => if s = str ("b") then [(0, 1)] else []

/-- A compile function on which every pattern fails. -/
def compileNone : Str → Option RE := fun _ => none

/-- A transparent style box. -/
def style0 : Int → Int → Str → Str := fun _ _ s => s

/-- A trivial position formatter. -/
def fmt0 : Int → Int → Str := fun _ _ => []

end Logview

namespace Logview

/-! ## Claim C1 — chunking-invariance of ingestion -/

/-- Claim C1, counterexample: splitting the content `a\rb` into `a\r`
and `b` does not leave the Line Store and pending buffer in the same
state as one ingest of the whole string.  `bufio.ScanLines` drops the
trailing `'\r'` of `a\r` at end of data, so the split run ends with
pending buffer `ab`, while the single run keeps it: `a\rb`. -/
theorem C1_counterexample :
    ¬ ((handleWrite hl0 (handleWrite hl0 New (str ("a\r"))) (str ("b"))).lines =
          (handleWrite hl0 New (str ("a\r") ++ str ("b"))).lines ∧
       (handleWrite hl0 (handleWrite hl0 New (str ("a\r"))) (str ("b"))).buffer =
          (handleWrite hl0 New (str ("a\r") ++ str ("b"))).buffer) := by
  decide

/-! ## Claim C2 — incremental classification of newly finalized lines -/

/-- Claim C2 fails on the code (code bug): ingesting `a\nb\n` with a
compiled query matching exactly `b` finalizes the Lines `a` and `b`;
`searchLine` does classify line 1 as a match (second conjunct), yet the
Filtered View stays empty, because the append inside the scan loop is
gated on `strings.HasSuffix(text, "\n")` and scanner tokens never end in
a newline. -/
theorem C2_code_bug_eval :
    (handleWrite hl0 { New with queryRe := some reB } (str ("a\nb\n"))).lines
        = [str ("a"), str ("b")] ∧
    searchLineOn hl0 (some reB) [str ("a"), str ("b")] 1 = some (str ("[b]")) ∧
    (handleWrite hl0 { New with queryRe := some reB } (str ("a\nb\n"))).filtered = [] := by
  decide

/-! ## Claim C3 — pinned-mode target row count under an enabled status line -/

/-- Claim C3 fails on the code (code bug): with the status line enabled
and window height 3, `Render` hands `RenderLog` the log pane height 2
(= height - 1), but the pinned branch then applies `m.logHeight` to that
already-reduced height, so it accumulates only until 2 - 1 = 1 row is
filled: pinned at index 0 over the lines `a`, `b` it paints only `a`,
while the tailing branch with the same pane height paints `a\nb`. -/
theorem C3_code_bug_eval :
    logHeight { New with lines := [str ("a"), str ("b")], shouldHardwrap := true, scrollPosition := 0 } 2 = 1 ∧
    (RenderLog ws0 ts0 { New with lines := [str ("a"), str ("b")], shouldHardwrap := true, scrollPosition := 0 } 5 2).2 = str ("a") ∧
    (RenderLog ws0 ts0 { New with lines := [str ("a"), str ("b")], shouldHardwrap := true, scrollPosition := -1 } 5 2).2 = str ("a") ++ '\n' :: str ("b") ∧
    (Render ws0 ts0 style0 style0 fmt0 [] { New with lines := [str ("a"), str ("b")], shouldHardwrap := true, scrollPosition := 0 } 5 3).2 = str ("a") ++ ['\n'] := by
  decide

/-! ## Claim C4 — scroll operations and the Pinned-index invariant -/

/-- Claim C4, counterexample: with an empty Active View (the fresh
model), `ScrollBy 1` leaves the Scroll State at `Pinned(0)`, which is
neither `Tailing` nor a `Pinned(index)` with `index < len(ActiveView)`
(the length is 0). -/
theorem C4_counterexample :
    (ScrollBy New 1).scrollPosition = 0 ∧
    ¬ ((ScrollBy New 1).scrollPosition < 0 ∨
       ((0:Int) ≤ (ScrollBy New 1).scrollPosition ∧
        (ScrollBy New 1).scrollPosition < ((lineView (ScrollBy New 1)).length : Int))) := by
  decide

/-- Claim C4 as amended: every scroll operation leaves the Scroll State
either Tailing or `Pinned(index)` with `0 ≤ index < max 1 len`; when the
Active View is empty the pinned index is 0, which does not satisfy
`index < len`.  `ScrollBy` always lands pinned; `ScrollTo` lands Tailing
exactly for a negative argument. -/
theorem C4_amended (m : Model) (d j : Int) :
    (0 ≤ (ScrollBy m d).scrollPosition ∧
      (ScrollBy m d).scrollPosition < max 1 ((lineView m).length : Int)) ∧
    ((ScrollTo m j).scrollPosition = -1 ∨
      (0 ≤ (ScrollTo m j).scrollPosition ∧
        (ScrollTo m j).scrollPosition < max 1 ((lineView m).length : Int))) ∧
    (0 ≤ j → 0 ≤ (ScrollTo m j).scrollPosition) := by
  refine ⟨?_, ?_, ?_⟩
  · simp only [ScrollBy, clamp]
    split <;> simp <;> omega
  · simp only [ScrollTo, clamp]
    split
    · exact Or.inl rfl
    · refine Or.inr ⟨by simp, ?_⟩
      simp
      omega
  · intro hj
    simp only [ScrollTo, clamp]
    split
    · omega
    · simp

/-- Claim C4 witness: the amended bounds at a concrete model and
concrete scroll amounts. -/
theorem C4_witness :
    (0 ≤ (ScrollBy { New with lines := [str ("a")] } 3).scrollPosition ∧
      (ScrollBy { New with lines := [str ("a")] } 3).scrollPosition <
        max 1 ((lineView { New with lines := [str ("a")] }).length : Int)) ∧
    ((ScrollTo { New with lines := [str ("a")] } 2).scrollPosition = -1 ∨
      (0 ≤ (ScrollTo { New with lines := [str ("a")] } 2).scrollPosition ∧
        (ScrollTo { New with lines := [str ("a")] } 2).scrollPosition <
          max 1 ((lineView { New with lines := [str ("a")] }).length : Int))) ∧
    (0 ≤ (2:Int) → 0 ≤ (ScrollTo { New with lines := [str ("a")] } 2).scrollPosition) :=
  C4_amended { New with lines := [str ("a")] } 3 2

/-! ## Claim C5 — the cached first displayed index after a tailing render -/

/-- Claim C5, counterexample: a tailing render of the one-line store
`[a]` (width 2, height 5) paints line 0 (the output is four blank pad
rows over `a`, bottom-aligned), so the oldest Line actually included has
logical index 0, but the cached first displayed index is -1: the Go loop
decrements `pointer` once more after including the line. -/
theorem C5_counterexample :
    (RenderLog ws0 ts0 { New with lines := [str ("a")], shouldHardwrap := true } 2 5).2
        = str ("  \n  \n  \n  \na") ∧
    oldestIncluded ws0 true [str ("a")] [] 2 5 = 0 ∧
    (RenderLog ws0 ts0 { New with lines := [str ("a")], shouldHardwrap := true } 2 5).1.firstDisplayedLine ≠ 0 := by
  decide

/-! ## Claim C6 — query toggling, scroll kind, and pinned overflow -/

/-- Claim C6, counterexample: with one stored line, a render pinned at
index 5 (≥ the Active View length 1) paints an empty log pane, not the
window `Pinned(0)` would paint: `RenderLog` performs no clamping of the
scroll position. -/
theorem C6_counterexample :
    (RenderLog ws0 ts0 { New with lines := [str ("a")], shouldHardwrap := true, scrollPosition := 5 } 5 5).2 ≠
      (RenderLog ws0 ts0 { New with lines := [str ("a")], shouldHardwrap := true, scrollPosition := 0 } 5 5).2 ∧
    (RenderLog ws0 ts0 { New with lines := [str ("a")], shouldHardwrap := true, scrollPosition := 5 } 5 5).2 = [] ∧
    (RenderLog ws0 ts0 { New with lines := [str ("a")], shouldHardwrap := true, scrollPosition := 0 } 5 5).2 = str ("a") := by
  decide

/-! ## Claim C9 — degenerate render inputs -/

/-- Claim C9: rendering with a non-positive width or height returns the
empty frame (and, the operation being a total function, signals no
error). -/
theorem C9_degenerate_render (ws ts : Str → Int → Str)
    (styleLog styleStatus : Int → Int → Str → Str) (fmtPos : Int → Int → Str)
    (inputView : Str) (m : Model) (width height : Int)
    (h : width ≤ 0 ∨ height ≤ 0) :
    (Render ws ts styleLog styleStatus fmtPos inputView m width height).2 = [] := by
  unfold Render
  rw [if_pos h]

/-- Claim C9 witness: a concrete degenerate render. -/
theorem C9_witness :
    (Render ws0 ts0 style0 style0 fmt0 [] { New with lines := [str ("a")] } 0 5).2 = [] :=
  C9_degenerate_render ws0 ts0 style0 style0 fmt0 [] { New with lines := [str ("a")] } 0 5
    (Or.inl (by decide))

end Logview

namespace Logview

/-! ## Helper lemmas -/

/-- The function `search` reads only `queryRe` and `lines` of the model. -/
theorem search_eq_of_fields (hl : Str → Str) {m1 m2 : Model}
    (hq : m1.queryRe = m2.queryRe) (hL : m1.lines = m2.lines) :
    search hl m1 = search hl m2 := by
  unfold search searchLine
  rw [hq, hL]

/-- The split `splitNL` never returns the empty list. -/
theorem splitNL_ne_nil (s : Str) : splitNL s ≠ [] := by
  cases s with
  | nil => simp [splitNL]
  | cons c rest =>
    unfold splitNL
    split
    · simp
    · split <;> simp

/-- The number of groups `splitNL` produces is the newline count plus 1. -/
theorem splitNL_length (s : Str) : (splitNL s).length = s.count '\n' + 1 := by
  induction s with
  | nil => simp [splitNL]
  | cons c rest ih =>
    unfold splitNL
    by_cases hc : c = '\n'
    · subst hc
      simp [ih, List.count_cons]
    · rw [if_neg hc]
      cases h : splitNL rest with
      | nil => exact absurd h (splitNL_ne_nil rest)
      | cons g gs =>
        rw [h] at ih
        simp only [List.length_cons] at ih ⊢
        simpa [List.count_cons, hc] using ih

/-- For an in-range `n`, `lastNLines` is dropping all but the last `n`
groups. -/
theorem lastNLines_eq_drop (s : Str) (mm : Nat) (hm : mm < (splitNL s).length) :
    lastNLines s (mm : Int) = joinNL ((splitNL s).drop ((splitNL s).length - mm)) := by
  have h1 : (max 0 (((splitNL s).length : Int) - (mm : Int))).toNat
      = (splitNL s).length - mm := by omega
  rw [lastNLines, h1]

/-- For an in-range `n`, `firstNLines` is taking the first `n` groups. -/
theorem firstNLines_eq_take (s : Str) (mm : Nat) (hm : mm ≤ (splitNL s).length) :
    firstNLines s (mm : Int) = joinNL ((splitNL s).take mm) := by
  have h1 : (min ((mm : Nat) : Int) (((splitNL s).length : Nat) : Int)).toNat = mm := by omega
  rw [firstNLines, h1]

/-! ## Claim C7 — invalid search patterns are silent no-ops -/

/-- Claim C7: when the pattern of a (non-empty) query string fails to
compile, `SetQuery`/`handleSearch` leaves the compiled query unchanged,
raises no error (the operation is total), and the previously active
filter keeps determining the Filtered View — the Filtered View is
recomputed with the old compiled query over the unchanged Line Store —
and hence also the Active View.  The non-emptiness hypothesis is
faithful: Go's `regexp.Compile` succeeds on the empty pattern, and
`handleSearch` treats the empty query as its own (valid) clear-filter
case. -/
theorem C7_invalid_query_noop (hl : Str → Str) (compile : Str → Option RE) (m : Model)
    (q : Str) (hq : q ≠ []) (hc : compile q = none) :
    (SetQuery hl compile m q).queryRe = m.queryRe ∧
    (SetQuery hl compile m q).lines = m.lines ∧
    (SetQuery hl compile m q).filtered = search hl m := by
  refine ⟨?_, ?_, ?_⟩ <;> simp only [SetQuery, handleSearch, hq, hc, if_neg hq]
  · rfl
  · rfl
  · exact search_eq_of_fields hl rfl rfl

/-- Claim C7 witness: a failing compile of the pattern `(` on a model
with one stored line and an active query matching `b`. -/
theorem C7_witness :
    (SetQuery hl0 compileNone { New with lines := [str ("b")], queryRe := some reB } (str ("("))).queryRe = ({ New with lines := [str ("b")], queryRe := some reB } : Model).queryRe ∧
    (SetQuery hl0 compileNone { New with lines := [str ("b")], queryRe := some reB } (str ("("))).lines = ({ New with lines := [str ("b")], queryRe := some reB } : Model).lines ∧
    (SetQuery hl0 compileNone { New with lines := [str ("b")], queryRe := some reB } (str ("("))).filtered = search hl0 { New with lines := [str ("b")], queryRe := some reB } :=
  C7_invalid_query_noop hl0 compileNone { New with lines := [str ("b")], queryRe := some reB }
    (str ("(")) (by decide) rfl

/-! ## Claim C8 — soft-wrap clipping directions -/

/-- Claim C8: in soft-wrap mode, when the full reflow of a line at the
given width has `k` visual rows and the budget is `m < k`, `wrapLine`
returns exactly the last `m` rows of the full reflow in the Tailing
direction (`scrollPosition < 0`) and exactly the first `m` rows in the
Pinned direction, in both cases with reported height `m`. -/
theorem C8_wrap_clip (ws ts : Str → Int → Str) (m : Model) (line : Str) (width : Int)
    (mm : Nat) (hsoft : m.shouldHardwrap = false)
    (hm : mm < (splitNL (ws line width)).length) :
    (m.scrollPosition < 0 →
      wrapLine ws ts m line (mm : Int) width =
        (joinNL ((splitNL (ws line width)).drop ((splitNL (ws line width)).length - mm)),
         (mm : Int))) ∧
    (0 ≤ m.scrollPosition →
      wrapLine ws ts m line (mm : Int) width =
        (joinNL ((splitNL (ws line width)).take mm), (mm : Int))) := by
  have hgt : countNL (ws line width) + 1 > (mm : Int) := by
    have hlen := splitNL_length (ws line width)
    simp only [countNL]
    omega
  constructor <;> intro hsp
  · unfold wrapLine
    rw [hsoft]
    simp only [Bool.false_eq_true, if_false]
    rw [if_pos hgt, if_pos hsp, lastNLines_eq_drop _ _ hm]
  · have hdir : ¬ m.scrollPosition < 0 := by omega
    unfold wrapLine
    rw [hsoft]
    simp only [Bool.false_eq_true, if_false]
    rw [if_pos hgt, if_neg hdir, firstNLines_eq_take _ _ (Nat.le_of_lt hm)]

/-- Claim C8 witness: the identity stand-in reflow of `x\ny\nz` has
three rows; with a budget of one row, the tailing direction keeps the
last row `z` with height 1. -/
theorem C8_witness :
    ((New.scrollPosition < 0 →
      wrapLine ws0 ts0 New (str ("x\ny\nz")) ((1 : Nat) : Int) 9 =
        (joinNL ((splitNL (ws0 (str ("x\ny\nz")) 9)).drop
          ((splitNL (ws0 (str ("x\ny\nz")) 9)).length - 1)), ((1 : Nat) : Int))) ∧
    (0 ≤ New.scrollPosition →
      wrapLine ws0 ts0 New (str ("x\ny\nz")) ((1 : Nat) : Int) 9 =
        (joinNL ((splitNL (ws0 (str ("x\ny\nz")) 9)).take 1), ((1 : Nat) : Int)))) ∧
    wrapLine ws0 ts0 New (str ("x\ny\nz")) 1 9 = (str ("z"), 1) :=
  ⟨C8_wrap_clip ws0 ts0 New (str ("x\ny\nz")) 9 1 rfl (by decide), by decide⟩

/-! ## Claim C10 — ingestion only mutates lines, filtered and buffer -/

/-- Overwriting `buffer` and `lines` does not change the other
fields. -/
theorem nonIngest_set_buffer_lines (x : Model) (L : List Str) (b : Str) :
    nonIngest { x with buffer := b, lines := L } = nonIngest x := rfl

/-- The scan loop of `handleWrite` only changes `lines` and
`filtered`. -/
theorem writeLoop_nonIngest (hl : Str → Str) :
    ∀ (ts : List Str) (m : Model), nonIngest (writeLoop hl m ts) = nonIngest m := by
  intro ts
  induction ts with
  | nil => intro m; rfl
  | cons t rest ih =>
    intro m
    rw [writeLoop, ih]
    dsimp only
    split
    · split <;> rfl
    · rfl

/-- Claim C10: ingestion (`Write`/`handleWrite`) changes only the
`lines`, `filtered` and `buffer` fields; the window dimensions, wrap
mode, statusbar flag, focus, query input text, compiled query, previous
query, held key, scroll position and cached first displayed index are
all untouched. -/
theorem C10_ingest_frame (hl : Str → Str) (m : Model) (content : Str) :
    nonIngest (handleWrite hl m content) = nonIngest m := by
  unfold handleWrite
  split
  · rfl
  · dsimp only
    split
    · rw [nonIngest_set_buffer_lines, writeLoop_nonIngest]
      split <;> rfl
    · rw [writeLoop_nonIngest]
      split <;> rfl

end Logview

namespace Logview

/-! ## Claim C6 — query toggling and pinned-overflow rendering -/

/-- The pinned accumulation loop does nothing once its condition
fails. -/
theorem headLoop_stop (ws ts : Str → Int → Str) (m : Model) (lv : List Str)
    (targetHeight width : Int) (fuel pointer : Nat) (oh : Int) (out : Str)
    (h : ¬ (oh < targetHeight ∧ pointer < lv.length)) :
    headLoop ws ts m lv targetHeight width fuel pointer oh out = (pointer, oh, out) := by
  cases fuel with
  | zero => rfl
  | succ f =>
    unfold headLoop
    rw [if_neg h]

/-- The operation `handleSearch` never touches the scroll position. -/
theorem handleSearch_scrollPosition (hl : Str → Str) (compile : Str → Option RE) (m : Model) :
    (handleSearch hl compile m).scrollPosition = m.scrollPosition := by
  unfold handleSearch
  dsimp only
  split
  · rfl
  · split <;> rfl

/-- Dropping a trailing newline that was just appended. -/
theorem trimTrailingNL_concat (x : Str) : trimTrailingNL (x ++ ['\n']) = x := by
  simp [trimTrailingNL, List.getLast?_concat, List.dropLast_concat]

/-- Claim C6 as amended: toggling the query (`SetQuery`, hence
`handleSearch`) never changes the scroll position, so the Scroll State's
kind is preserved; but the pinned start index is not clamped on render:
a render with `Pinned(index)` where `index ≥ len(ActiveView)` paints no
stored line at all — the log pane is just the wrapped pending buffer
when that is non-empty and the pane has positive height, and empty
otherwise — rather than the window `Pinned(len(ActiveView)-1)` would
paint. -/
theorem C6_amended :
    (∀ (hl : Str → Str) (compile : Str → Option RE) (m : Model) (q : Str),
        (SetQuery hl compile m q).scrollPosition = m.scrollPosition) ∧
    (∀ (ws ts : Str → Int → Str) (m : Model) (width height : Int),
        0 ≤ m.scrollPosition → ((lineView m).length : Int) ≤ m.scrollPosition →
        (RenderLog ws ts m width height).2 =
          (if 0 < logHeight m height ∧ m.buffer ≠ [] then
            (wrapLine ws ts m m.buffer (logHeight m height) width).1
          else [])) := by
  constructor
  · intro hl compile m q
    exact handleSearch_scrollPosition hl compile { m with inputValue := q }
  · intro ws ts m width height hsp hlen
    unfold RenderLog
    rw [if_neg (by omega : ¬ m.scrollPosition < 0)]
    dsimp only
    rw [headLoop_stop ws ts m (lineView m) (logHeight m height) width (lineView m).length
      m.scrollPosition.toNat 0 [] (by
        rintro ⟨-, hlt⟩
        omega)]
    dsimp only
    by_cases hcond : (0:Int) < logHeight m height ∧ m.buffer ≠ []
    · rw [if_pos hcond, if_pos hcond, sub_zero]
      exact trimTrailingNL_concat _
    · rw [if_neg hcond, if_neg hcond]
      rfl

/-- Claim C6 witness: the amended statement applied at a concrete model
(one stored line, pinned at 5, width 5, height 5) and a concrete query
toggle. -/
theorem C6_witness :
    (SetQuery hl0 compileNone New (str ("x"))).scrollPosition = New.scrollPosition ∧
    (RenderLog ws0 ts0 { New with lines := [str ("a")], shouldHardwrap := true, scrollPosition := 5 } 5 5).2 =
      (if 0 < logHeight { New with lines := [str ("a")], shouldHardwrap := true, scrollPosition := 5 } 5 ∧ ({ New with lines := [str ("a")], shouldHardwrap := true, scrollPosition := 5 } : Model).buffer ≠ [] then
        (wrapLine ws0 ts0 { New with lines := [str ("a")], shouldHardwrap := true, scrollPosition := 5 } ({ New with lines := [str ("a")], shouldHardwrap := true, scrollPosition := 5 } : Model).buffer (logHeight { New with lines := [str ("a")], shouldHardwrap := true, scrollPosition := 5 } 5) 5).1
      else []) :=
  ⟨C6_amended.1 hl0 compileNone New (str ("x")),
   C6_amended.2 ws0 ts0 { New with lines := [str ("a")], shouldHardwrap := true, scrollPosition := 5 } 5 5
     (by decide) (by decide)⟩

end Logview

namespace Logview

/-! ## Claim C1 — helper lemmas on the scanner -/

/-- Defining equation of `scanAux` at the end of the data. -/
theorem scanAux_nil (cur : Str) :
    scanAux [] cur = if cur = [] then [] else [dropCR cur] := rfl

/-- Defining equation of `scanAux` at one more character. -/
theorem scanAux_cons (c : Char) (rest cur : Str) :
    scanAux (c :: rest) cur =
      if c = '\n' then dropCR cur :: scanAux rest [] else scanAux rest (cur ++ [c]) := rfl

/-- A scan with a non-empty current token yields at least one token. -/
theorem scanAux_ne_nil (s : Str) : ∀ cur, cur ≠ [] → scanAux s cur ≠ [] := by
  induction s with
  | nil =>
    intro cur h
    simp [scanAux, h]
  | cons c rest ih =>
    intro cur h
    unfold scanAux
    split
    · simp
    · exact ih _ (by simp)

/-- Scanning non-empty content yields at least one token. -/
theorem scanTokens_ne_nil (s : Str) (hs : s ≠ []) : scanTokens s ≠ [] := by
  cases s with
  | nil => exact absurd rfl hs
  | cons c rest =>
    unfold scanTokens scanAux
    split
    · simp
    · exact scanAux_ne_nil rest _ (by simp)

/-- A newline-free span consumed by the scanner just extends the current
token. -/
theorem scanAux_append_noNL :
    ∀ (xs ys cur : Str), '\n' ∉ xs → scanAux (xs ++ ys) cur = scanAux ys (cur ++ xs) := by
  intro xs
  induction xs with
  | nil =>
    intro ys cur _
    simp
  | cons c rest ih =>
    intro ys cur h
    have hc : ¬ c = '\n' := fun e => h (by simp [e])
    rw [List.cons_append, scanAux_cons, if_neg hc,
      ih ys (cur ++ [c]) (fun hm => h (List.mem_cons_of_mem _ hm)), List.append_assoc]
    rfl

/-- The helper `dropCR` only looks at the end of the string. -/
theorem dropCR_append (pre cur : Str) (h : cur ≠ []) :
    dropCR (pre ++ cur) = pre ++ dropCR cur := by
  unfold dropCR
  rw [List.getLast?_append_of_ne_nil _ h]
  split
  · rw [List.dropLast_append_of_ne_nil _ h]
  · rfl

/-- Prefixing the current token with `pre` prefixes the first produced
token with `pre`, provided `pre` cannot lose a trailing `'\r'` to the
end-of-data `dropCR` (which only happens when the rest of the current
token is empty). -/
theorem scanAux_cur_factor :
    ∀ (s cur pre t : Str) (ts : List Str), (cur = [] → pre.getLast? ≠ some '\r') →
      scanAux s cur = t :: ts → scanAux s (pre ++ cur) = (pre ++ t) :: ts := by
  intro s
  induction s with
  | nil =>
    intro cur pre t ts h hcons
    rw [scanAux_nil] at hcons
    by_cases hcur : cur = []
    · rw [if_pos hcur] at hcons
      exact absurd hcons (by simp)
    · rw [if_neg hcur] at hcons
      have hpc : ¬ pre ++ cur = [] := by simp [hcur]
      rw [scanAux_nil, if_neg hpc, dropCR_append pre cur hcur]
      obtain ⟨rfl, rfl⟩ : dropCR cur = t ∧ ([] : List Str) = ts := by
        injection hcons with h1 h2
        exact ⟨h1, h2⟩
      rfl
  | cons c rest ih =>
    intro cur pre t ts h hcons
    rw [scanAux_cons] at hcons
    rw [scanAux_cons]
    by_cases hc : c = '\n'
    · rw [if_pos hc] at hcons
      rw [if_pos hc]
      obtain ⟨rfl, rfl⟩ : dropCR cur = t ∧ scanAux rest [] = ts := by
        injection hcons with h1 h2
        exact ⟨h1, h2⟩
      by_cases hcur : cur = []
      · subst hcur
        have hpre2 : dropCR pre = pre := by
          unfold dropCR
          rw [if_neg (h rfl)]
        simp only [List.append_nil, show dropCR ([] : Str) = [] from rfl, hpre2]
      · rw [dropCR_append pre cur hcur]
    · rw [if_neg hc] at hcons
      rw [if_neg hc, List.append_assoc]
      exact ih (cur ++ [c]) pre t ts (by simp) hcons

/-- Splitting the content at its first newline: the segment before it
becomes one token (after `dropCR`) and scanning restarts on the rest. -/
theorem scanTokens_cons_nl (pre rest : Str) (hpre : '\n' ∉ pre) :
    scanTokens (pre ++ '\n' :: rest) = dropCR pre :: scanTokens rest := by
  unfold scanTokens
  rw [scanAux_append_noNL pre ('\n' :: rest) [] hpre, List.nil_append, scanAux_cons,
    if_pos rfl]

/-- Every string containing a newline splits at its first newline. -/
theorem exists_first_nl :
    ∀ (s : Str), '\n' ∈ s → ∃ pre rest, s = pre ++ '\n' :: rest ∧ '\n' ∉ pre := by
  intro s
  induction s with
  | nil =>
    intro h
    simp at h
  | cons c rest ih =>
    intro h
    by_cases hc : c = '\n'
    · exact ⟨[], rest, by simp [hc], by simp⟩
    · have hm : '\n' ∈ rest := by
        rcases List.mem_cons.mp h with h1 | h2
        · exact absurd h1.symm hc
        · exact h2
      obtain ⟨pre, rest2, heq, hpre⟩ := ih hm
      refine ⟨c :: pre, rest2, by simp [heq], ?_⟩
      intro hmem
      rcases List.mem_cons.mp hmem with h1 | h2
      · exact hc h1.symm
      · exact hpre h2

/-! ## Claim C1 — helper lemmas on the pure line/buffer ingestion -/

/-- Ingesting content that opens with a complete first line first
flushes that line (buffer prepended, `dropCR` applied) and then ingests
the rest with an empty buffer. -/
theorem ingestLB_step (L : List Str) (b pre rest : Str) (hpre : '\n' ∉ pre) :
    ingestLB L b (pre ++ '\n' :: rest) = ingestLB (L ++ [b ++ dropCR pre]) [] rest := by
  unfold ingestLB
  rw [scanTokens_cons_nl pre rest hpre]
  cases hrt : scanTokens rest with
  | nil =>
    have hr : rest = [] := by
      by_contra hne
      exact scanTokens_ne_nil rest hne hrt
    subst hr
    have hend : (pre ++ '\n' :: ([] : Str)).getLast? = some '\n' := by
      rw [List.getLast?_append_of_ne_nil _ (by simp)]
      rfl
    dsimp only
    rw [if_pos hend]
  | cons t ts =>
    have hrne : rest ≠ [] := by
      intro e
      subst e
      simp [scanTokens, scanAux] at hrt
    have hend : (pre ++ '\n' :: rest).getLast? = rest.getLast? := by
      rw [List.getLast?_append_of_ne_nil _ (by simp)]
      cases rest with
      | nil => exact absurd rfl hrne
      | cons r rs => rfl
    dsimp only
    rw [hend]
    have hall : L ++ (b ++ dropCR pre) :: t :: ts = (L ++ [b ++ dropCR pre]) ++ ([] ++ t) :: ts := by
      simp
    by_cases he : rest.getLast? = some '\n'
    · rw [if_pos he, if_pos he, hall]
    · rw [if_neg he, if_neg he, hall]

/-- Ingesting newline-free content (that does not end in `'\r'`) only
extends the pending buffer. -/
theorem ingestLB_noNL (L : List Str) (b s1 : Str) (h1 : '\n' ∉ s1)
    (h2 : s1.getLast? ≠ some '\r') : ingestLB L b s1 = (L, b ++ s1) := by
  by_cases hs : s1 = []
  · subst hs
    simp [ingestLB, scanTokens, scanAux]
  · have htok : scanTokens s1 = [dropCR s1] := by
      have h := scanAux_append_noNL s1 [] [] h1
      simp only [List.append_nil, List.nil_append] at h
      unfold scanTokens
      rw [h]
      unfold scanAux
      rw [if_neg hs]
    have hd : dropCR s1 = s1 := by
      unfold dropCR
      rw [if_neg h2]
    have hend : ¬ s1.getLast? = some '\n' := by
      intro he
      exact h1 (List.mem_of_mem_getLast? he)
    unfold ingestLB
    rw [htok, hd]
    dsimp only
    rw [if_neg hend]
    simp [List.dropLast_concat, List.getLast?_concat]

/-- Newline-free content already sitting in the pending buffer ingests
the same as content still to come (the merge step of
chunking-invariance). -/
theorem ingestLB_merge (L : List Str) (b s1 s2 : Str) (h1 : '\n' ∉ s1)
    (h2 : s1.getLast? ≠ some '\r') :
    ingestLB L (b ++ s1) s2 = ingestLB L b (s1 ++ s2) := by
  by_cases hs2 : s2 = []
  · subst hs2
    rw [List.append_nil]
    rw [ingestLB_noNL L b s1 h1 h2]
    rfl
  · cases htok : scanTokens s2 with
    | nil => exact absurd htok (scanTokens_ne_nil s2 hs2)
    | cons t ts =>
      have htok2 : scanTokens (s1 ++ s2) = (s1 ++ t) :: ts := by
        unfold scanTokens
        rw [scanAux_append_noNL s1 s2 [] h1]
        have h := scanAux_cur_factor s2 [] s1 t ts (fun _ => h2) htok
        simpa using h
      have hend : (s1 ++ s2).getLast? = s2.getLast? :=
        List.getLast?_append_of_ne_nil _ hs2
      unfold ingestLB
      rw [htok, htok2, hend]
      dsimp only
      have hall : L ++ ((b ++ s1) ++ t) :: ts = L ++ (b ++ (s1 ++ t)) :: ts := by
        simp
      by_cases he : s2.getLast? = some '\n'
      · rw [if_pos he, if_pos he, hall]
      · rw [if_neg he, if_neg he, hall]

/-- Chunking-invariance of the pure line/buffer ingestion, as long as
the first chunk does not end with a carriage return. -/
theorem ingestLB_chunk (s1 : Str) (h : s1.getLast? ≠ some '\r') (L : List Str) (b s2 : Str) :
    ingestLB (ingestLB L b s1).1 (ingestLB L b s1).2 s2 = ingestLB L b (s1 ++ s2) := by
  by_cases hnl : '\n' ∈ s1
  · obtain ⟨pre, rest, heq, hpre⟩ := exists_first_nl s1 hnl
    have hrest : rest.getLast? ≠ some '\r' := by
      rw [heq] at h
      cases rest with
      | nil => simp
      | cons r rs =>
        rw [List.getLast?_append_of_ne_nil _ (by simp)] at h
        exact h
    rw [heq, ingestLB_step L b pre rest hpre]
    have hassoc : (pre ++ '\n' :: rest) ++ s2 = pre ++ '\n' :: (rest ++ s2) := by simp
    rw [hassoc, ingestLB_step L b pre (rest ++ s2) hpre]
    exact ingestLB_chunk rest hrest _ _ s2
  · rw [ingestLB_noNL L b s1 hnl h]
    exact ingestLB_merge L b s1 s2 hnl h
termination_by s1.length
decreasing_by subst heq; simp only [List.length_append, List.length_cons]; omega

/-- The scan loop of `handleWrite` appends exactly its tokens to the
Line Store and leaves the buffer alone. -/
theorem writeLoop_lines_buffer (hl : Str → Str) :
    ∀ (ts : List Str) (m : Model),
      (writeLoop hl m ts).lines = m.lines ++ ts ∧ (writeLoop hl m ts).buffer = m.buffer := by
  intro ts
  induction ts with
  | nil =>
    intro m
    simp [writeLoop]
  | cons t rest ih =>
    intro m
    rw [writeLoop]
    dsimp only
    split
    · split
      · exact ⟨by rw [(ih _).1]; simp, by rw [(ih _).2]⟩
      · exact ⟨by rw [(ih _).1]; simp, by rw [(ih _).2]⟩
    · exact ⟨by rw [(ih _).1]; simp, by rw [(ih _).2]⟩

/-- On the `lines`/`buffer` pair, `handleWrite` acts as `ingestLB`. -/
theorem handleWrite_lines_buffer (hl : Str → Str) (m : Model) (content : Str) :
    (handleWrite hl m content).lines = (ingestLB m.lines m.buffer content).1 ∧
    (handleWrite hl m content).buffer = (ingestLB m.lines m.buffer content).2 := by
  unfold handleWrite ingestLB
  cases htok : scanTokens content with
  | nil => exact ⟨rfl, rfl⟩
  | cons t ts =>
    dsimp only
    have key : ∀ (X : Model), X.lines = m.lines ++ [m.buffer ++ t] → X.buffer = [] →
        ((if 0 < (writeLoop hl X ts).lines.length ∧ ¬ content.getLast? = some '\n' then
            { writeLoop hl X ts with buffer := (writeLoop hl X ts).lines.getLast?.getD [], lines := (writeLoop hl X ts).lines.dropLast }
          else writeLoop hl X ts).lines =
          (if content.getLast? = some '\n'
            then (m.lines ++ (m.buffer ++ t) :: ts, ([] : Str))
            else ((m.lines ++ (m.buffer ++ t) :: ts).dropLast,
                  (m.lines ++ (m.buffer ++ t) :: ts).getLast?.getD [])).1 ∧
         (if 0 < (writeLoop hl X ts).lines.length ∧ ¬ content.getLast? = some '\n' then
            { writeLoop hl X ts with buffer := (writeLoop hl X ts).lines.getLast?.getD [], lines := (writeLoop hl X ts).lines.dropLast }
          else writeLoop hl X ts).buffer =
          (if content.getLast? = some '\n'
            then (m.lines ++ (m.buffer ++ t) :: ts, ([] : Str))
            else ((m.lines ++ (m.buffer ++ t) :: ts).dropLast,
                  (m.lines ++ (m.buffer ++ t) :: ts).getLast?.getD [])).2) := by
      intro X hXL hXB
      obtain ⟨hWL, hWB⟩ := writeLoop_lines_buffer hl ts X
      rw [hXL] at hWL
      rw [hXB] at hWB
      have hWL2 : (writeLoop hl X ts).lines = m.lines ++ (m.buffer ++ t) :: ts := by
        rw [hWL]
        simp
      by_cases he : content.getLast? = some '\n'
      · rw [if_neg (by simp [he]), if_pos he]
        exact ⟨hWL2, hWB⟩
      · have hpos : 0 < (writeLoop hl X ts).lines.length := by
          rw [hWL2]
          simp
        rw [if_pos ⟨hpos, he⟩, if_neg he]
        constructor
        · show (writeLoop hl X ts).lines.dropLast = _
          rw [hWL2]
        · show (writeLoop hl X ts).lines.getLast?.getD [] = _
          rw [hWL2]
    exact key _ (by split <;> rfl) (by split <;> rfl)

/-- Claim C1 as amended: for every content string and every split of it
into two parts such that the first part does not end with a carriage
return, ingesting the two parts in order leaves the Line Store and the
pending buffer in the same final state as one ingest of the
concatenation.  (The carriage-return proviso is forced by
`bufio.ScanLines`, which drops a `'\r'` standing at the end of the
data.) -/
theorem C1_amended (hl : Str → Str) (m : Model) (s1 s2 : Str)
    (h : s1.getLast? ≠ some '\r') :
    (handleWrite hl (handleWrite hl m s1) s2).lines = (handleWrite hl m (s1 ++ s2)).lines ∧
    (handleWrite hl (handleWrite hl m s1) s2).buffer = (handleWrite hl m (s1 ++ s2)).buffer := by
  obtain ⟨hL1, hB1⟩ := handleWrite_lines_buffer hl m s1
  obtain ⟨hL2, hB2⟩ := handleWrite_lines_buffer hl (handleWrite hl m s1) s2
  obtain ⟨hL3, hB3⟩ := handleWrite_lines_buffer hl m (s1 ++ s2)
  rw [hL2, hB2, hL3, hB3, hL1, hB1, ingestLB_chunk s1 h m.lines m.buffer s2]
  exact ⟨rfl, rfl⟩

/-- Claim C1 witness: the amended statement at the concrete split of
`a\nb` into `a\n` and `b`. -/
theorem C1_witness :
    (handleWrite hl0 (handleWrite hl0 New (str ("a\n"))) (str ("b"))).lines =
        (handleWrite hl0 New (str ("a\n") ++ str ("b"))).lines ∧
    (handleWrite hl0 (handleWrite hl0 New (str ("a\n"))) (str ("b"))).buffer =
        (handleWrite hl0 New (str ("a\n") ++ str ("b"))).buffer :=
  C1_amended hl0 New (str ("a\n")) (str ("b")) (by decide)

end Logview

namespace Logview

/-! ## Claim C5 — helper lemmas on block heights and the tailing loop -/

/-- A full block is at least one row tall. -/
theorem fullBlockHeight_pos (ws : Str → Int → Str) (hard : Bool) (l : Str) (width : Int) :
    1 ≤ fullBlockHeight ws hard l width := by
  unfold fullBlockHeight countNL
  split
  · omega
  · omega

/-- With a positive budget, the height `wrapLine` reports is the full
block height clipped to the budget. -/
theorem wrapLine_height (ws ts : Str → Int → Str) (m : Model) (l : Str)
    (maxLines width : Int) (h : 1 ≤ maxLines) :
    (wrapLine ws ts m l maxLines width).2
      = min (fullBlockHeight ws m.shouldHardwrap l width) maxLines := by
  unfold wrapLine fullBlockHeight
  split
  · simp
    omega
  · dsimp only
    split
    · rename_i hgt
      omega
    · rename_i hle
      omega

/-- Unfolding one line out of a suffix height. -/
theorem tailSuffixHeight_step (ws : Str → Int → Str) (hard : Bool) (lv : List Str)
    (width : Int) (j : Nat) (hj : j < lv.length) :
    tailSuffixHeight ws hard lv width j
      = fullBlockHeight ws hard (lv.getD j []) width + tailSuffixHeight ws hard lv width (j + 1) := by
  unfold tailSuffixHeight
  rw [List.drop_eq_getElem_cons hj, List.getD_eq_getElem lv [] hj, List.map_cons,
    List.sum_cons]

/-- Suffix heights vanish at the end of the view. -/
theorem tailSuffixHeight_length (ws : Str → Int → Str) (hard : Bool) (lv : List Str)
    (width : Int) (j : Nat) (hj : lv.length ≤ j) :
    tailSuffixHeight ws hard lv width j = 0 := by
  unfold tailSuffixHeight
  rw [List.drop_eq_nil_of_le hj]
  rfl

/-- Suffix heights shrink (weakly) as the start index grows. -/
theorem tailSuffixHeight_antitone_step (ws : Str → Int → Str) (hard : Bool) (lv : List Str)
    (width : Int) (j : Nat) :
    tailSuffixHeight ws hard lv width (j + 1) ≤ tailSuffixHeight ws hard lv width j := by
  by_cases hj : j < lv.length
  · rw [tailSuffixHeight_step ws hard lv width j hj]
    have := fullBlockHeight_pos ws hard (lv.getD j []) width
    omega
  · rw [tailSuffixHeight_length ws hard lv width j (by omega),
      tailSuffixHeight_length ws hard lv width (j + 1) (by omega)]

/-- The tailing loop stops exactly where the pure height recursion
`tailStop` says, given the loop's height invariant. -/
theorem tailLoop_fst (ws ts : Str → Int → Str) (m : Model) (lv : List Str)
    (target width A : Int) :
    ∀ (p1 : Nat) (oh : Int) (out : Str), p1 ≤ lv.length →
      oh = min target (A + tailSuffixHeight ws m.shouldHardwrap lv width p1) →
      (tailLoop ws ts m lv target width p1 oh out).1
        = tailStop A target (tailSuffixHeight ws m.shouldHardwrap lv width) p1 := by
  intro p1
  induction p1 with
  | zero =>
    intro oh out h1 h2
    rfl
  | succ p ih =>
    intro oh out hp hoh
    unfold tailLoop tailStop
    by_cases hc : A + tailSuffixHeight ws m.shouldHardwrap lv width (p + 1) < target
    · have hoh' : oh < target := by omega
      rw [if_pos hoh', if_pos hc]
      have hbudget : 1 ≤ target - oh := by omega
      have hstep := tailSuffixHeight_step ws m.shouldHardwrap lv width p (by omega)
      have hw := wrapLine_height ws ts m (lv.getD p []) (target - oh) width hbudget
      apply ih
      · omega
      · rw [hw]
        omega
    · have hoh' : ¬ oh < target := by omega
      rw [if_neg hoh', if_neg hc]

/-- Defining equation of `tailStop` one step down. -/
theorem tailStop_succ (A target : Int) (suffix : Nat → Int) (j : Nat) :
    tailStop A target suffix (j + 1)
      = if A + suffix (j + 1) < target then tailStop A target suffix j else j + 1 := rfl

/-- The stopping index of the pure height recursion is the least index
whose tail fits under the target (`lv.length` when none does): the
`find?` characterization. -/
theorem tailStop_eq_find (A target : Int) (suffix : Nat → Int)
    (hmono : ∀ j : Nat, suffix (j + 1) ≤ suffix j) :
    ∀ n : Nat, ((List.range n).find? fun j => decide (A + suffix (j + 1) < target)).getD n
      = tailStop A target suffix n := by
  have hanti : ∀ i j : Nat, i ≤ j → suffix j ≤ suffix i := by
    intro i j
    induction j with
    | zero =>
      intro h
      have hi : i = 0 := by omega
      subst hi
      exact le_refl _
    | succ k ih =>
      intro h
      rcases Nat.lt_or_ge i (k + 1) with h1 | h2
      · exact le_trans (hmono k) (ih (by omega))
      · have hi : i = k + 1 := by omega
        subst hi
        exact le_refl _
  intro n
  induction n with
  | zero => rfl
  | succ n ih =>
    by_cases hc : A + suffix (n + 1) < target
    · rw [List.range_succ, List.find?_append]
      have hfn : List.find? (fun j => decide (A + suffix (j + 1) < target)) [n] = some n := by
        simp [List.find?, hc]
      rw [hfn]
      rw [tailStop_succ, if_pos hc]
      cases hf : List.find? (fun j => decide (A + suffix (j + 1) < target)) (List.range n) with
      | none =>
        rw [hf] at ih
        simpa using ih
      | some j =>
        rw [hf] at ih
        simpa using ih
    · have hnone :
          List.find? (fun j => decide (A + suffix (j + 1) < target)) (List.range (n + 1))
            = none := by
        rw [List.find?_eq_none]
        intro j hj
        simp only [List.mem_range] at hj
        simp only [decide_eq_true_eq]
        have hle : suffix (n + 1) ≤ suffix (j + 1) := hanti _ _ (by omega)
        omega
      rw [hnone]
      rw [tailStop_succ, if_neg hc]
      rfl

/-- Claim C5 as amended: after a Tailing-mode render whose pending
buffer block leaves room for at least one row (so that the line loop is
entered at all), the cached first displayed index is ONE LESS than the
logical index of the oldest Line actually included in the painted
window — the least index whose tail of full block heights (plus the
buffer block) fits strictly under the target row count; it is -1 when
every line fits.  The off-by-one comes from the Go loop decrementing
`pointer` once more after the last included line. -/
theorem C5_amended (ws ts : Str → Int → Str) (m : Model) (width height : Int)
    (htail : m.scrollPosition < 0)
    (hbuf : bufBlockHeight ws m.shouldHardwrap m.buffer width height < height) :
    (RenderLog ws ts m width height).1.firstDisplayedLine =
      (oldestIncluded ws m.shouldHardwrap (lineView m) m.buffer width height : Int) - 1 := by
  unfold RenderLog
  rw [if_pos htail]
  dsimp only
  have hA : (if m.buffer ≠ [] then
        ((wrapLine ws ts m m.buffer height width).2, '\n' :: (wrapLine ws ts m m.buffer height width).1)
      else ((0 : Int), ([] : Str))).1
      = bufBlockHeight ws m.shouldHardwrap m.buffer width height := by
    by_cases hb : m.buffer = []
    · simp [hb, bufBlockHeight]
    · rw [if_pos hb]
      have hh : 1 ≤ height := by
        unfold bufBlockHeight countNL at hbuf
        rw [if_neg hb] at hbuf
        split at hbuf
        · omega
        · omega
      rw [wrapLine_height ws ts m m.buffer height width hh]
      unfold bufBlockHeight fullBlockHeight
      rw [if_neg hb]
      split
      · omega
      · omega
  rw [hA]
  have hinv : bufBlockHeight ws m.shouldHardwrap m.buffer width height
      = min height (bufBlockHeight ws m.shouldHardwrap m.buffer width height
          + tailSuffixHeight ws m.shouldHardwrap (lineView m) width (lineView m).length) := by
    rw [tailSuffixHeight_length ws m.shouldHardwrap (lineView m) width (lineView m).length
      (le_refl _)]
    omega
  rw [tailLoop_fst ws ts m (lineView m) height width
    (bufBlockHeight ws m.shouldHardwrap m.buffer width height) (lineView m).length _ _
    (le_refl _) hinv]
  rw [← tailStop_eq_find (bufBlockHeight ws m.shouldHardwrap m.buffer width height) height
    (tailSuffixHeight ws m.shouldHardwrap (lineView m) width)
    (tailSuffixHeight_antitone_step ws m.shouldHardwrap (lineView m) width) (lineView m).length]
  rfl

/-- Claim C5 witness: the amended statement at the concrete tailing
render of the counterexample (one stored line, width 2, height 5),
where the oldest included index is 0 and the cached index is -1. -/
theorem C5_witness :
    (RenderLog ws0 ts0 { New with lines := [str ("a")], shouldHardwrap := true } 2 5).1.firstDisplayedLine =
      (oldestIncluded ws0 true (lineView { New with lines := [str ("a")], shouldHardwrap := true }) [] 2 5 : Int) - 1 :=
  C5_amended ws0 ts0 { New with lines := [str ("a")], shouldHardwrap := true } 2 5 (by decide)
    (by decide)

end Logview
